import Mathlib

/-!
Verification of the `umm` media-manager core logic.

The Python sources are shallowly embedded here.  Python strings are modelled
as `List Char` (`Str`), Python sets of strings as `List Str` with membership,
and Python `None`-returning functions as `Option`-valued functions.  Character
classes (`\w`, `\s`, digits, upper/lower case) are modelled at ASCII level,
matching the inputs the program actually handles; Unicode-only divergences of
Python's character classes are outside the model.

Sources embedded:
  * `services/sanitizer_service.py` : `_is_normalized_filename`,
    `_parse_normalized_filename`, `_parse_filename`, `_scan_for_videos`, and
    the operation-planning slice of `run`.
  * `services/file_system_manager.py` : `prepare_movie_folder_name`.
  * `services/tmdb_service.py` : `get_trailer_key` (selection logic).
  * `services/downloader_service.py` : `download_trailer` (retry loop).
  * `services/junk_service.py` : `_tokenize_filename`, `build_junk_cache`.
  * `media_manager.py` : `_increment_failures`, `_download_task` (failure
    bookkeeping slice).
-/

/-- Python strings, modelled as lists of characters. -/
abbrev Str := List Char

/-- `str.isdigit()` (ASCII): non-empty and all characters are digits. -/
def pyIsDigit (s : Str) : Bool :=
  !s.isEmpty && s.all Char.isDigit

/-- `str.lower()` (ASCII). -/
def toLowerStr (s : Str) : Str :=
  s.map Char.toLower

/-- A regex word character `\w` (ASCII): letter, digit or underscore. -/
def isWordChar (c : Char) : Bool :=
  c.isAlphanum || c = '_'

/-- Auxiliary for `splitWs`: `acc` holds the current in-progress token,
reversed. -/
def splitWsAux : Str → Str → List Str
  | [], acc => if acc.isEmpty then [] else [acc.reverse]
  | c :: cs, acc =>
    if c.isWhitespace then
      if acc.isEmpty then splitWsAux cs [] else acc.reverse :: splitWsAux cs []
    else
      splitWsAux cs (c :: acc)

/-- Python `str.split()` with no argument: split on runs of whitespace,
discarding empty pieces. -/
def splitWs (s : Str) : List Str :=
  splitWsAux s []

/-- `" ".join(tokens)`. -/
def joinSpace : List Str → Str
  | [] => []
  | [t] => t
  | t :: t' :: ts => t ++ ' ' :: joinSpace (t' :: ts)

/-- Python `str.strip()`: drop leading and trailing whitespace. -/
def pyStrip (s : Str) : Str :=
  (((s.dropWhile Char.isWhitespace).reverse).dropWhile Char.isWhitespace).reverse

/-- The index of the last `'.'` in `s` (Python `s.rfind('.')`), if any,
computed as the number of characters strictly before it.  The characters
after the last dot are exactly the longest dot-free suffix, whose length is
read off the reversed string. -/
def lastDotIdx (s : Str) : Option Nat :=
  let tailRev := s.reverse.takeWhile fun c => c != '.'
  if tailRev.length = s.length then none
  else some (s.length - 1 - tailRev.length)

/-- `pathlib.PurePath(name).stem` for a bare file name: the name up to its
last dot, provided that dot is neither the first nor the last character. -/
def pathStem (s : Str) : Str :=
  match lastDotIdx s with
  | none => s
  | some i => if 0 < i ∧ i < s.length - 1 then s.take i else s

/-- `pathlib.PurePath(name).suffix` for a bare file name. -/
def pathSuffix (s : Str) : Str :=
  match lastDotIdx s with
  | none => []
  | some i => if 0 < i ∧ i < s.length - 1 then s.drop i else []

/-! ## FilenameParser (`sanitizer_service.py`) -/

/-- The numeric value of a four-digit year given its characters. -/
def toYearVal (c1 c2 c3 c4 : Char) : Nat :=
  (c1.toNat - 48) * 1000 + (c2.toNat - 48) * 100 + (c3.toNat - 48) * 10 +
    (c4.toNat - 48)

/-- Does a candidate year start with `19` or `20`?  (The alternation
`19\d{2}|20\d{2}` of the year regex.) -/
def yearHead (c1 c2 : Char) : Bool :=
  (c1 = '1' && c2 = '9') || (c1 = '2' && c2 = '0')

/-- Search for the regex `\b(19\d{2}|20\d{2})\b`, as in
`re.search(...)`: leftmost match wins.  `prev` is the character immediately
before the current position (`none` at the start of the string), `i` the
current position.  Returns the match position and the year's numeric value. -/
def findYearAux (prev : Option Char) (i : Nat) : Str → Option (Nat × Nat)
  | c1 :: c2 :: c3 :: c4 :: rest =>
    if (match prev with | none => true | some p => !isWordChar p)
        && yearHead c1 c2 && c3.isDigit && c4.isDigit
        && (match rest with | [] => true | r :: _ => !isWordChar r) then
      some (i, toYearVal c1 c2 c3 c4)
    else
      findYearAux (some c1) (i + 1) (c2 :: c3 :: c4 :: rest)
  | _ => none

/-- `re.search(r"\b(19\d{2}|20\d{2})\b", s)`. -/
def findYear (s : Str) : Option (Nat × Nat) :=
  findYearAux none 0 s

/-- The separator class of `re.sub(r"[\._\[\]\(\)-]", " ", s)`. -/
def isSepChar (c : Char) : Bool :=
  c = '.' || c = '_' || c = '[' || c = ']' || c = '(' || c = ')' || c = '-'

/-- `re.sub(r"[\._\[\]\(\)-]", " ", s)`: each separator becomes one space. -/
def subSeps (s : Str) : Str :=
  s.map fun c => if isSepChar c then ' ' else c

/-- Helper for the bracket-group regex: from the character after an opening
bracket, find the first closing `)` or `]`, returning the remainder after it.
`.` does not match a newline, so a newline before any closer means no match. -/
def findCloser : Str → Option Str
  | [] => none
  | c :: cs =>
    if c = ')' || c = ']' then some cs
    else if c = '\n' then none
    else findCloser cs

/-- `re.sub(r"[\(\[].*?[\)\]]", "", s)`: remove each non-greedy bracketed
group.  Fueled recursion (each step consumes at least one character, so
`s.length` fuel suffices). -/
def removeBracketsFuel : Nat → Str → Str
  | 0, s => s
  | _ + 1, [] => []
  | f + 1, c :: cs =>
    if c = '(' || c = '[' then
      match findCloser cs with
      | some rest => removeBracketsFuel f rest
      | none => c :: removeBracketsFuel f cs
    else
      c :: removeBracketsFuel f cs

def removeBrackets (s : Str) : Str :=
  removeBracketsFuel s.length s

/-- The fixed default junk set of `_parse_filename`. -/
def defaultJunk : List Str :=
  [['4', 'k'], ['1', '0', '8', '0', 'p'], ['7', '2', '0', 'p'],
   ['u', 'h', 'd'], ['b', 'l', 'u', 'r', 'a', 'y'],
   ['w', 'e', 'b', '-', 'd', 'l'], ['w', 'e', 'b', 'r', 'i', 'p'],
   ['x', '2', '6', '4'], ['x', '2', '6', '5'], ['h', 'e', 'v', 'c']]

/-- `SanitizerService.junk_titles`. -/
def junkTitles : List Str :=
  [['s', 'a', 'm', 'p', 'l', 'e'],
   ['v', 'i', 'd', 'e', 'o', ' ', 's', 'a', 'm', 'p', 'l', 'e'],
   ['d', 'e', 'l', 'e', 't', 'e', 'd', ' ', 's', 'c', 'e', 'n', 'e', 's'],
   ['f', 'e', 'a', 't', 'u', 'r', 'e', 't', 't', 'e'],
   ['n', 'o', 's', 't', 'a', 'l', 'g', 'i', 'a'],
   ['w', 'a', 'n', 'd', 'e', 'r', 'l', 'u', 's', 't']]

/-- The `is_year_digit` test inside `_parse_filename`'s token filter:
`t.isdigit() and len(t) == 4 and (t.startswith('19') or t.startswith('20'))`. -/
def isYearToken (t : Str) : Bool :=
  pyIsDigit t && t.length = 4 &&
    (t.take 2 = ['1', '9'] || t.take 2 = ['2', '0'])

/-- The token filter of `_parse_filename`:
`t.lower() not in all_junk and not is_year_digit`, where
`all_junk = junk_words ∪ default_junk`. -/
def keepToken (junkWords : List Str) (t : Str) : Bool :=
  !(junkWords.contains (toLowerStr t) || defaultJunk.contains (toLowerStr t))
    && !isYearToken t

/-- `SanitizerService._parse_filename`: clean and extract a title and year
from a messy filename. -/
def parseFilename (filename : Str) (junkWords : List Str) :
    Option (Str × Option Nat) :=
  let cleanName0 := pathStem filename
  let yearHit := findYear cleanName0
  let year : Option Nat := yearHit.map Prod.snd
  let cleanName1 :=
    match yearHit with
    | some (i, _) => cleanName0.take i
    | none => cleanName0
  let cleanName2 := removeBrackets (subSeps cleanName1)
  let tokens := splitWs cleanName2
  let titleTokens := tokens.filter (keepToken junkWords)
  let title := pyStrip (joinSpace titleTokens)
  -- `if not year:` fall back to re-scanning the original filename
  let year2 :=
    match year with
    | none => (findYear filename).map Prod.snd
    | some y => some y
  if title.isEmpty then none
  else if junkTitles.contains (toLowerStr title) then none
  else some (title, year2)

/-! ### The canonical-form fast path -/

/-- Core of the `'Title (Year)'` regexes: decompose `s` as
`p ++ [w, '(', d1, d2, d3, d4, ')']` with `w` whitespace and four digits.
Returns `(p, year)`.  `p` must contain no newline (regex `.` does not match
newlines). -/
def normalizedCore (s : Str) : Option (Str × Nat) :=
  match s.reverse with
  | c0 :: e1 :: e2 :: e3 :: e4 :: c5 :: w :: pRev =>
    if c0 = ')' ∧ c5 = '(' ∧ e1.isDigit ∧ e2.isDigit ∧ e3.isDigit ∧
        e4.isDigit ∧ w.isWhitespace ∧ pRev.contains '\n' = false then
      some (pRev.reverse, toYearVal e4 e3 e2 e1)
    else none
  | _ => none

/-- Python's `$` also matches just before a single trailing newline. -/
def dollarAdjust (s : Str) : Str :=
  if s.getLast? = some '\n' then s.dropLast else s

/-- `SanitizerService._parse_normalized_filename`:
`re.search(r'^(.*?)\s\((\d{4})\)$', stem)` on a clean `'Title (Year)'`
string. -/
def parseNormalizedStem (s : Str) : Option (Str × Nat) :=
  normalizedCore (dollarAdjust s)

/-- `SanitizerService._is_normalized_filename`:
`re.search(r'^.+\s\(\d{4}\)$', stem)`.  Same shape, but the prefix before the
whitespace must be non-empty (`.+`). -/
def isNormalizedStem (s : Str) : Bool :=
  match parseNormalizedStem s with
  | some (p, _) => !p.isEmpty
  | none => false

/-! ## Operation planning (`SanitizerService.run`, lines 190–214)

Filesystem paths are modelled as lists of components (`pathlib` compares
paths componentwise).  `sourceFolder` is `file_path.parent`, `destFolder` is
`download_folder / new_folder_name`, `destFile` is
`dest_folder / new_file_name` with `new_file_name = new_folder_name + suffix`. -/

inductive OpType where
  | move_file
  | rename_file_in_place
  | rename_folder
deriving DecidableEq

/-- The operation-planning slice of `SanitizerService.run`: given the library
root, the file's path and the computed canonical folder name plus the file's
extension, return the planned operation (or `none` when the file is already
at its destination). -/
def planOperation (root filePath : List Str) (newFolderName suffix : Str) :
    Option OpType :=
  let newFileName := newFolderName ++ suffix
  let sourceFolder := filePath.dropLast
  let destFolder := root ++ [newFolderName]
  let destFile := destFolder ++ [newFileName]
  if filePath = destFile then none
  else if sourceFolder = root then some OpType.move_file
  else if sourceFolder = destFolder then some OpType.rename_file_in_place
  else some OpType.rename_folder

/-- The §4.3 decision table, written from the spec:
`S == R → move_file`; `S != R ∧ S == D → rename_file_in_place`;
`S != R ∧ S != D → rename_folder`. -/
def tableKind (S D R : List Str) : OpType :=
  if S = R then OpType.move_file
  else if S = D then OpType.rename_file_in_place
  else OpType.rename_folder

/-! ## `FileSystemManager.prepare_movie_folder_name` -/

/-- The character class of `re.sub(r'[<>:"/\\|?*]+', ' ', ...)`. -/
def illegalChar (c : Char) : Bool :=
  c = '<' || c = '>' || c = ':' || c = '"' || c = '/' || c = '\\' ||
    c = '|' || c = '?' || c = '*'

/-- `re.sub(r'[<>:"/\\|?*]+', ' ', s)`: each maximal run of illegal
characters becomes a single space.  Fueled recursion (`s.length` fuel
suffices, each step consumes at least one character). -/
def subIllegalRunsFuel : Nat → Str → Str
  | 0, s => s
  | _ + 1, [] => []
  | f + 1, c :: cs =>
    if illegalChar c then ' ' :: subIllegalRunsFuel f (cs.dropWhile illegalChar)
    else c :: subIllegalRunsFuel f cs

/-- `FileSystemManager.prepare_movie_folder_name`. -/
def prepare_movie_folder_name (title releaseDate : Str) : Str :=
  let yearStr :=
    if ¬releaseDate.isEmpty ∧ 4 ≤ releaseDate.length then releaseDate.take 4
    else ['N', '/', 'A']
  let folderName := title ++ [' ', '('] ++ yearStr ++ [')']
  pyStrip (subIllegalRunsFuel folderName.length folderName)

/-- Spec-side year component, from the claim's words: the first four
characters of `release_date`, or `"N/A"` when it is empty or shorter than
four characters. -/
def specYearStr (releaseDate : Str) : Str :=
  if releaseDate = [] ∨ releaseDate.length < 4 then ['N', '/', 'A']
  else releaseDate.take 4

/-- Spec-side, per-character reading of the claim: each illegal character is
replaced by one space. -/
def specCharReplace (s : Str) : Str :=
  s.map fun c => if illegalChar c then ' ' else c

/-- The claim's folder name under the per-character reading. -/
def specFolderNamePerChar (title releaseDate : Str) : Str :=
  pyStrip (specCharReplace (title ++ [' ', '('] ++ specYearStr releaseDate ++ [')']))

/-- Amended spec-side replacement, as a state machine: the first illegal
character of a run emits a single space, later illegal characters of the same
run emit nothing — i.e. each maximal run of illegal characters is replaced by
one space. -/
def collapseRunsAux (prevIllegal : Bool) : Str → Str
  | [] => []
  | c :: cs =>
    if illegalChar c then
      if prevIllegal then collapseRunsAux true cs
      else ' ' :: collapseRunsAux true cs
    else c :: collapseRunsAux false cs

/-- The amended claim's folder name: runs of illegal characters collapse to
one space, then the result is trimmed. -/
def specFolderNameCollapsed (title releaseDate : Str) : Str :=
  pyStrip (collapseRunsAux false (title ++ [' ', '('] ++ specYearStr releaseDate ++ [')']))

/-! ## `TMDbService.get_trailer_key` (selection logic)

The HTTP fetch is external; the embedding takes the decoded video-descriptor
list.  A descriptor's `site`/`type`/`key` fields may be absent
(`v.get(...) = None`); `official` defaults to `False`
(`v.get("official", False)`). -/

structure Video where
  site : Option Str
  vtype : Option Str
  official : Bool
  key : Option Str
deriving DecidableEq

/-- The `priorities` dictionary lookup `priorities.get((v_type, v_official))`. -/
def videoPriority (t : Option Str) (official : Bool) : Option Nat :=
  if t = some ['T', 'r', 'a', 'i', 'l', 'e', 'r'] then
    some (if official then 1 else 2)
  else if t = some ['T', 'e', 'a', 's', 'e', 'r'] then
    some (if official then 3 else 4)
  else none

/-- The selection loop of `get_trailer_key`: `best_video` and
`lowest_priority` (initially `float('inf')`, modelled by `none`), updated
only on strictly lower priority. -/
def selectBestAux (acc : Option (Video × Nat)) : List Video → Option (Video × Nat)
  | [] => acc
  | v :: vs =>
    match videoPriority v.vtype v.official with
    | none => selectBestAux acc vs
    | some p =>
      match acc with
      | none => selectBestAux (some (v, p)) vs
      | some (_, bp) =>
        if p < bp then selectBestAux (some (v, p)) vs else selectBestAux acc vs

/-- `TMDbService.get_trailer_key` on a decoded video list. -/
def get_trailer_key (videos : List Video) : Option Str :=
  let youtubeVideos :=
    videos.filter fun v => v.site = some ['Y', 'o', 'u', 'T', 'u', 'b', 'e']
  match selectBestAux none youtubeVideos with
  | some (v, _) => v.key
  | none => none

/-- Spec-side selection, from the spec's words: the single highest-priority
candidate, ties broken by first encountered in list order. -/
def specBestVideo : List Video → Option (Video × Nat)
  | [] => none
  | v :: vs =>
    match videoPriority v.vtype v.official, specBestVideo vs with
    | none, r => r
    | some p, none => some (v, p)
    | some p, some (bv, bp) =>
      if p ≤ bp then some (v, p) else some (bv, bp)

/-! ## `DownloaderService.download_trailer` (retry loop) -/

/-- Observable events of the retry loop. -/
inductive DlEvent where
  | invoke (attempt : Nat)
  | sleep (seconds : Nat)
  | failureCallback
deriving DecidableEq

/-- The body of `download_trailer`'s `for attempt in range(1, 4)` loop over
the remaining attempt numbers.  `runTool attempt` is the external tool's
success on that invocation.  On success the loop returns immediately; on
failure with `attempt < 3` it sleeps `attempt * 2` seconds; after the loop
the failure callback is invoked. -/
def downloadAttempts (runTool : Nat → Bool) : List Nat → Bool × List DlEvent
  | [] => (false, [DlEvent.failureCallback])
  | a :: rest =>
    if runTool a then (true, [DlEvent.invoke a])
    else
      let tail := downloadAttempts runTool rest
      (tail.1,
        DlEvent.invoke a ::
          (if a < 3 then DlEvent.sleep (a * 2) :: tail.2 else tail.2))

/-- `DownloaderService.download_trailer`: attempts 1, 2, 3. -/
def download_trailer (runTool : Nat → Bool) : Bool × List DlEvent :=
  downloadAttempts runTool [1, 2, 3]

/-- `set.add` on the known-failures set, modelled on a duplicate-free list. -/
def addKnownFailure (movieId : Nat) (known : List Nat) : List Nat :=
  if movieId ∈ known then known else known ++ [movieId]

inductive TaskOutcome where
  | skippedKnown
  | dryRunSkip
  | noKey
  | failed
  | downloaded
deriving DecidableEq

/-- The failure-bookkeeping slice of `MediaManager._download_task`:
known-failure short-circuit, dry-run short-circuit, trailer-key resolution
(given here as an input, the HTTP call being external), the download with its
events, and the `known_failures.add(movie_id)` calls. -/
def downloadTask (movieId : Nat) (known : List Nat) (dryRun : Bool)
    (trailerKey : Option Str) (runTool : Nat → Bool) :
    TaskOutcome × List Nat × List DlEvent :=
  if movieId ∈ known then (TaskOutcome.skippedKnown, known, [])
  else if dryRun then (TaskOutcome.dryRunSkip, known, [])
  else
    match trailerKey with
    | none => (TaskOutcome.noKey, addKnownFailure movieId known, [])
    | some _ =>
      let res := download_trailer runTool
      if res.1 then (TaskOutcome.downloaded, known, res.2)
      else (TaskOutcome.failed, addKnownFailure movieId known, res.2)

/-! ## `MediaManager._increment_failures` -/

/-- `_increment_failures`: increment the counter, then raise `RuntimeError`
when it has reached 5.  Returns the new counter value and whether the call
raised.  The counter is incremented before the check, so it advances even on
a raising call. -/
def incrementFailures (failures : Nat) : Nat × Bool :=
  let f := failures + 1
  (f, decide (5 ≤ f))

/-- The counter value after `k` calls starting from the initial value 0. -/
def counterAfter : Nat → Nat
  | 0 => 0
  | k + 1 => (incrementFailures (counterAfter k)).1

/-! ## `SanitizerService._scan_for_videos` -/

/-- A directory entry as seen by the scan: its file name and whether it is a
regular file. -/
structure FsEntry where
  name : Str
  isFile : Bool
deriving DecidableEq

def videoExtensions : List Str :=
  [['.', 'm', 'k', 'v'], ['.', 'm', 'p', '4'], ['.', 'a', 'v', 'i'],
   ['.', 'm', 'o', 'v'], ['.', 'w', 'm', 'v'], ['.', 'f', 'l', 'v']]

/-- Python's substring test `needle in hay`. -/
def containsSub (needle hay : Str) : Bool :=
  hay.tails.any fun t => needle.isPrefixOf t

def trailerSuffix : Str := ['-', 't', 'r', 'a', 'i', 'l', 'e', 'r']

def libraryIndexName : Str :=
  ['l', 'i', 'b', 'r', 'a', 'r', 'y', '.', 'j', 's', 'o', 'n']

/-- The filter of `_scan_for_videos`:
`p.is_file() and p.suffix.lower() in self.video_extensions and
"-trailer" not in p.stem and p.name != "library.json"`. -/
def scanIncludes (e : FsEntry) : Bool :=
  e.isFile && videoExtensions.contains (toLowerStr (pathSuffix e.name)) &&
    !containsSub trailerSuffix (pathStem e.name) &&
    !(e.name == libraryIndexName)

/-- The claim's inclusion predicate, with trailer tagging read as a *suffix*
match (`stem` ends with `"-trailer"`), as the spec's words say. -/
def claimIncluded (e : FsEntry) : Bool :=
  e.isFile && videoExtensions.contains (toLowerStr (pathSuffix e.name)) &&
    !(trailerSuffix.isSuffixOf (pathStem e.name)) &&
    !(e.name == libraryIndexName)

/-! ## `JunkService` -/

/-- `JunkService._tokenize_filename`. -/
def tokenizeFilename (filename : Str) : List Str :=
  let name := subSeps (pathStem filename)
  let tokens := (splitWs name).map toLowerStr
  tokens.filter fun t => 2 < t.length && !pyIsDigit t

/-- `JunkService.build_junk_cache`, fresh-build path (no usable cache file),
over the names of the scanned video files.  Per file the *set* of its tokens
is used (`set(self._tokenize_filename(...))`, modelled by `dedup`).  The
float threshold `count > unnormalized_file_count * 0.2` is modelled exactly
by `5 * count > unnormalized_file_count` (the two agree on all integer counts
for library sizes representable without floating-point rounding across an
integer boundary). -/
def buildJunkCache (names : List Str) : List Str :=
  if names.length < 10 then []
  else
    let unnormalized := names.filter fun n => !isNormalizedStem (pathStem n)
    if unnormalized.length < 5 then []
    else
      let allTokens := (unnormalized.map fun n => (tokenizeFilename n).dedup).flatten
      allTokens.dedup.filter fun t =>
        5 * allTokens.count t > unnormalized.length && allTokens.count t > 1

/-! ## General lemmas about the string helpers -/

theorem splitWsAux_tokens (s : Str) :
    ∀ acc, (∀ c ∈ acc, c.isWhitespace = false) →
      ∀ t ∈ splitWsAux s acc, t ≠ [] ∧ ∀ c ∈ t, c.isWhitespace = false := by
  induction s with
  | nil =>
    intro acc hacc t ht
    unfold splitWsAux at ht
    split at ht
    · simp at ht
    · rename_i hne
      rw [List.mem_singleton] at ht
      subst ht
      refine ⟨?_, fun c hc => hacc c (List.mem_reverse.1 hc)⟩
      simp only [List.isEmpty_eq_true] at hne
      simp [hne]
  | cons c cs ih =>
    intro acc hacc t ht
    unfold splitWsAux at ht
    by_cases hw : c.isWhitespace
    · rw [if_pos hw] at ht
      split at ht
      · exact ih [] (by simp) t ht
      · rename_i hne
        rw [List.mem_cons] at ht
        rcases ht with rfl | ht
        · refine ⟨?_, fun d hd => hacc d (List.mem_reverse.1 hd)⟩
          simp only [List.isEmpty_eq_true] at hne
          simp [hne]
        · exact ih [] (by simp) t ht
    · rw [if_neg hw] at ht
      refine ih (c :: acc) ?_ t ht
      intro d hd
      rcases List.mem_cons.1 hd with rfl | hd
      · exact Bool.eq_false_iff.2 hw
      · exact hacc d hd

/-- Every token of `splitWs` is non-empty and whitespace-free. -/
theorem splitWs_tokens (s : Str) :
    ∀ t ∈ splitWs s, t ≠ [] ∧ ∀ c ∈ t, c.isWhitespace = false :=
  splitWsAux_tokens s [] (by simp)

theorem splitWsAux_cons_not_ws (c : Char) (hc : c.isWhitespace = false)
    (s acc : Str) : splitWsAux (c :: s) acc = splitWsAux s (c :: acc) := by
  simp [splitWsAux, hc]

theorem splitWsAux_append (t : Str) (htok : ∀ c ∈ t, c.isWhitespace = false) :
    ∀ (r acc : Str), splitWsAux (t ++ r) acc = splitWsAux r (t.reverse ++ acc) := by
  induction t with
  | nil => intro r acc; simp
  | cons c cs ih =>
    intro r acc
    have hc : c.isWhitespace = false := htok c (List.mem_cons_self c cs)
    show splitWsAux (c :: (cs ++ r)) acc = _
    rw [splitWsAux_cons_not_ws c hc]
    rw [ih (fun d hd => htok d (List.mem_cons_of_mem c hd)) r (c :: acc)]
    simp

theorem splitWsAux_ws_cons (c : Char) (hc : c.isWhitespace = true)
    (s acc : Str) (hacc : acc ≠ []) :
    splitWsAux (c :: s) acc = acc.reverse :: splitWsAux s [] := by
  simp [splitWsAux, hc, hacc]

/-- `splitWs` recovers the tokens of a single-space join of non-empty,
whitespace-free tokens. -/
theorem splitWs_joinSpace (l : List Str)
    (h : ∀ t ∈ l, t ≠ [] ∧ ∀ c ∈ t, c.isWhitespace = false) :
    splitWs (joinSpace l) = l := by
  induction l with
  | nil => rfl
  | cons t ts ih =>
    obtain ⟨hne, hws⟩ := h t (List.mem_cons_self t ts)
    cases ts with
    | nil =>
      show splitWs t = [t]
      unfold splitWs
      have := splitWsAux_append t hws [] []
      simp only [List.append_nil] at this
      rw [this]
      unfold splitWsAux
      rw [if_neg (by simp [hne])]
      simp
    | cons t' ts' =>
      show splitWs (t ++ ' ' :: joinSpace (t' :: ts')) = t :: t' :: ts'
      unfold splitWs
      rw [splitWsAux_append t hws, List.append_nil]
      rw [splitWsAux_ws_cons ' ' rfl _ _ (by simp [hne])]
      rw [List.reverse_reverse]
      exact congrArg (t :: ·) (ih fun u hu => h u (List.mem_cons_of_mem t hu))

theorem joinSpace_ne_nil (t : Str) (ts : List Str) (ht : t ≠ []) :
    joinSpace (t :: ts) ≠ [] := by
  cases ts with
  | nil => exact ht
  | cons t' ts' => simp [joinSpace, ht]

theorem joinSpace_head? (t : Str) (ts : List Str) (ht : t ≠ []) :
    (joinSpace (t :: ts)).head? = t.head? := by
  cases ts with
  | nil => rfl
  | cons t' ts' =>
    show (t ++ ' ' :: joinSpace (t' :: ts')).head? = t.head?
    cases t with
    | nil => exact absurd rfl ht
    | cons c cs => rfl

theorem joinSpace_getLast_aux (l : List Str) (h : ∀ t ∈ l, t ≠ []) :
    l = [] ∨ ∃ t ∈ l, (joinSpace l).getLast? = t.getLast? := by
  induction l with
  | nil => exact Or.inl rfl
  | cons t ts ih =>
    right
    cases ts with
    | nil => exact ⟨t, List.mem_cons_self t [], rfl⟩
    | cons t' ts' =>
      obtain ⟨u, hu, hlast⟩ :=
        (ih fun v hv => h v (List.mem_cons_of_mem t hv)).resolve_left (by simp)
      refine ⟨u, List.mem_cons_of_mem t hu, ?_⟩
      show (t ++ ' ' :: joinSpace (t' :: ts')).getLast? = u.getLast?
      have hne : joinSpace (t' :: ts') ≠ [] :=
        joinSpace_ne_nil t' ts' (h t' (by simp))
      rw [List.getLast?_append]
      cases hj : joinSpace (t' :: ts') with
      | nil => exact absurd hj hne
      | cons d ds =>
        rw [hj] at hlast
        have h1 : (' ' :: d :: ds).getLast? = (d :: ds).getLast? :=
          List.getLast?_cons_cons ..
        rw [h1, hlast]
        have hune : u ≠ [] := h u (List.mem_cons_of_mem t hu)
        cases hg : u.getLast? with
        | none => exact absurd (List.getLast?_eq_none_iff.1 hg) hune
        | some x => rfl

/-- `pyStrip` is the identity on strings whose first and last characters are
not whitespace. -/
theorem pyStrip_eq_self (s : Str)
    (h1 : ∀ c, s.head? = some c → c.isWhitespace = false)
    (h2 : ∀ c, s.getLast? = some c → c.isWhitespace = false) :
    pyStrip s = s := by
  unfold pyStrip
  have e1 : s.dropWhile Char.isWhitespace = s := by
    cases s with
    | nil => rfl
    | cons c cs => rw [List.dropWhile_cons_of_neg (by simp [h1 c rfl])]
  rw [e1]
  have e2 : s.reverse.dropWhile Char.isWhitespace = s.reverse := by
    cases hs : s.reverse with
    | nil => rfl
    | cons c cs =>
      have hc : s.getLast? = some c := by
        rw [← List.head?_reverse, hs]; rfl
      rw [List.dropWhile_cons_of_neg (by simp [h2 c hc])]
  rw [e2, List.reverse_reverse]

/-- `pyStrip` is the identity on a single-space join of non-empty,
whitespace-free tokens. -/
theorem pyStrip_joinSpace (l : List Str)
    (h : ∀ t ∈ l, t ≠ [] ∧ ∀ c ∈ t, c.isWhitespace = false) :
    pyStrip (joinSpace l) = joinSpace l := by
  cases l with
  | nil => rfl
  | cons t ts =>
    obtain ⟨hne, _⟩ := h t (List.mem_cons_self t ts)
    apply pyStrip_eq_self
    · intro c hc
      rw [joinSpace_head? t ts hne] at hc
      exact (h t (List.mem_cons_self t ts)).2 c (List.mem_of_mem_head? hc)
    · intro c hc
      obtain ⟨u, hu, hlast⟩ :=
        (joinSpace_getLast_aux (t :: ts) fun v hv => (h v hv).1).resolve_left
          (by simp)
      rw [hlast] at hc
      exact (h u hu).2 c (List.mem_of_mem_getLast? hc)

/-! ## Claim theorems -/

/-- Claim C1: for every video file the Sanitizer plans an operation for,
with `S` the file's folder, `D` the computed destination folder and `R` the
library root: no operation is planned exactly when the source file path
already equals the destination file path; otherwise the planned kind is
`move_file` if `S = R`, `rename_file_in_place` if `S ≠ R ∧ S = D`, and
`rename_folder` if `S ≠ R ∧ S ≠ D`, matching the §4.3 decision table. -/
theorem planOperation_matches_decision_table
    (root filePath : List Str) (newFolderName suffix : Str) :
    (planOperation root filePath newFolderName suffix = none ↔
      filePath = (root ++ [newFolderName]) ++ [newFolderName ++ suffix]) ∧
    ∀ k, planOperation root filePath newFolderName suffix = some k ↔
      filePath ≠ (root ++ [newFolderName]) ++ [newFolderName ++ suffix] ∧
      k = tableKind filePath.dropLast (root ++ [newFolderName]) root := by
  unfold planOperation tableKind
  simp only []
  constructor
  · split_ifs <;> simp_all
  · intro k
    split_ifs <;> simp_all <;> tauto

/-- Claim C7: starting from a counter of 0, the increment-and-check
operation returns normally on each of the first four increments and raises
on the fifth and every later increment: after `k` increments the counter is
`k`, and the next increment raises exactly when the post-increment value
`k + 1` is at least 5. -/
theorem incrementFailures_raises_iff_budget (k : Nat) :
    counterAfter k = k ∧
      ((incrementFailures (counterAfter k)).2 = true ↔ 5 ≤ k + 1) := by
  have h : counterAfter k = k := by
    induction k with
    | zero => rfl
    | succ n ih => simp [counterAfter, incrementFailures, ih]
  refine ⟨h, ?_⟩
  simp [incrementFailures, h]

/-- Claim C2, counterexample: with the empty junk-word set, the parser
applied to `"The.Movie.2021.1080p.BluRay.x264-GROUP.mkv"` returns the title
`"The Movie"` — not `"The Movie GROUP"` as the claim states — because the
year match truncates everything after `2021`, including `GROUP`. -/
theorem parse_scenario_counterexample :
    parseFilename "The.Movie.2021.1080p.BluRay.x264-GROUP.mkv".data [] =
      some ("The Movie".data, some 2021) ∧
    "The Movie".data ≠ "The Movie GROUP".data := by
  refine ⟨by decide, by decide⟩

/-- Claim C2, amended: for `"The.Movie.2021.1080p.BluRay.x264-GROUP.mkv"`,
parsing with the empty junk-word set already yields `("The Movie", 2021)`
(the year terminates the title segment, so `GROUP` never reaches the token
filter), and parsing with a learned junk set containing `"group"` yields the
same `("The Movie", 2021)`. -/
theorem parse_scenario_amended :
    parseFilename "The.Movie.2021.1080p.BluRay.x264-GROUP.mkv".data [] =
      some ("The Movie".data, some 2021) ∧
    parseFilename "The.Movie.2021.1080p.BluRay.x264-GROUP.mkv".data
        ["group".data] =
      some ("The Movie".data, some 2021) := by
  refine ⟨by decide, by decide⟩

/-- Claim C6: with a download tool that fails on every invocation, the
retry loop invokes the tool exactly three times (attempts 1, 2, 3), sleeps
`attempt × 2` seconds after each of the first two failures, invokes the
shared failure-counter callback exactly once, and returns failure; and the
calling download task then records the movie id in the known-failures set
exactly once. -/
theorem download_retry_ceiling
    (runTool : Nat → Bool) (hfail : ∀ a, runTool a = false)
    (movieId : Nat) (known : List Nat) (key : Str)
    (hnew : movieId ∉ known) :
    download_trailer runTool =
      (false,
        [DlEvent.invoke 1, DlEvent.sleep 2, DlEvent.invoke 2, DlEvent.sleep 4,
         DlEvent.invoke 3, DlEvent.failureCallback]) ∧
    (downloadTask movieId known false (some key) runTool).1 =
      TaskOutcome.failed ∧
    (downloadTask movieId known false (some key) runTool).2.1.count movieId =
      1 := by
  have hdl : download_trailer runTool =
      (false,
        [DlEvent.invoke 1, DlEvent.sleep 2, DlEvent.invoke 2, DlEvent.sleep 4,
         DlEvent.invoke 3, DlEvent.failureCallback]) := by
    simp [download_trailer, downloadAttempts, hfail]
  refine ⟨hdl, ?_, ?_⟩
  · simp [downloadTask, hnew, hdl]
  · have hcount : known.count movieId = 0 := List.count_eq_zero.2 hnew
    simp [downloadTask, hnew, hdl, addKnownFailure, List.count_append, hcount]

/-- Witness for C6 at a concrete movie id and empty known-failures set. -/
theorem download_retry_ceiling_witness :
    download_trailer (fun _ => false) =
      (false,
        [DlEvent.invoke 1, DlEvent.sleep 2, DlEvent.invoke 2, DlEvent.sleep 4,
         DlEvent.invoke 3, DlEvent.failureCallback]) ∧
    (downloadTask 7 [] false (some ['k']) (fun _ => false)).1 =
      TaskOutcome.failed ∧
    (downloadTask 7 [] false (some ['k']) (fun _ => false)).2.1.count 7 = 1 :=
  download_retry_ceiling (fun _ => false) (fun _ => rfl) 7 [] ['k'] (by decide)

theorem collapseRunsAux_true_dropWhile (s : Str) :
    collapseRunsAux true s = collapseRunsAux false (s.dropWhile illegalChar) := by
  induction s with
  | nil => rfl
  | cons c cs ih =>
    cases hc : illegalChar c with
    | true =>
      rw [List.dropWhile_cons_of_pos hc]
      simp [collapseRunsAux, hc, ih]
    | false =>
      rw [List.dropWhile_cons_of_neg (by simp [hc])]
      simp [collapseRunsAux, hc]

theorem subIllegalRunsFuel_eq_collapse (f : Nat) (s : Str) (h : s.length ≤ f) :
    subIllegalRunsFuel f s = collapseRunsAux false s := by
  induction f generalizing s with
  | zero =>
    cases s with
    | nil => rfl
    | cons c cs => simp at h
  | succ f ih =>
    cases s with
    | nil => rfl
    | cons c cs =>
      cases hc : illegalChar c with
      | true =>
        have hlen : (cs.dropWhile illegalChar).length ≤ f := by
          have hsplit :
              (cs.takeWhile illegalChar ++ cs.dropWhile illegalChar).length =
                cs.length := by
            rw [List.takeWhile_append_dropWhile]
          rw [List.length_append] at hsplit
          simp only [List.length_cons] at h
          omega
        simp [subIllegalRunsFuel, collapseRunsAux, hc, ih _ hlen,
          collapseRunsAux_true_dropWhile]
      | false =>
        have hlen : cs.length ≤ f := by
          simp only [List.length_cons] at h
          omega
        simp [subIllegalRunsFuel, collapseRunsAux, hc, ih _ hlen]

/-- Claim C4, counterexample: for title `"a<>b"` and release date
`"2020-05-01"`, the code collapses the run `<>` into a single space
(`"a b (2020)"`), while the claim's reading — each illegal character
replaced by a space — yields `"a  b (2020)"`. -/
theorem folder_name_counterexample :
    prepare_movie_folder_name "a<>b".data "2020-05-01".data ≠
      specFolderNamePerChar "a<>b".data "2020-05-01".data ∧
    prepare_movie_folder_name "a<>b".data "2020-05-01".data =
      "a b (2020)".data ∧
    specFolderNamePerChar "a<>b".data "2020-05-01".data =
      "a  b (2020)".data := by
  refine ⟨by decide, by decide, by decide⟩

/-- Claim C4, amended: `prepare_movie_folder_name` returns
`"<Title> (<Year>)"` where `Year` is the first four characters of
`release_date`, or `"N/A"` when it is empty or shorter than four characters,
with each *maximal run* of the characters `< > : " / \ | ? *` replaced by a
single space and the result trimmed of surrounding whitespace. -/
theorem prepare_movie_folder_name_spec (title releaseDate : Str) :
    prepare_movie_folder_name title releaseDate =
      specFolderNameCollapsed title releaseDate := by
  unfold prepare_movie_folder_name specFolderNameCollapsed
  simp only []
  have hyear :
      (if ¬releaseDate.isEmpty ∧ 4 ≤ releaseDate.length
        then releaseDate.take 4 else ['N', '/', 'A']) =
        specYearStr releaseDate := by
    unfold specYearStr
    cases releaseDate with
    | nil => simp
    | cons c cs =>
      by_cases h4 : 3 ≤ cs.length
      · rw [if_pos ⟨by simp, by simp only [List.length_cons]; omega⟩,
          if_neg (by simp; omega)]
      · rw [if_neg (by simp; omega), if_pos (by simp; omega)]
  rw [hyear]
  exact congrArg pyStrip (subIllegalRunsFuel_eq_collapse _ _ le_rfl)

theorem contains_mem_iff {α : Type} [BEq α] [LawfulBEq α] (l : List α) (x : α) :
    l.contains x = true ↔ x ∈ l := by
  rw [List.contains_iff_exists_mem_beq]
  constructor
  · rintro ⟨b, hb, he⟩
    rw [beq_iff_eq] at he
    exact he ▸ hb
  · intro h
    exact ⟨x, h, by simp⟩

theorem containsSub_iff (needle hay : Str) :
    containsSub needle hay = true ↔ ∃ pre post, hay = pre ++ needle ++ post := by
  unfold containsSub
  rw [List.any_eq_true]
  constructor
  · rintro ⟨t, ht, hp⟩
    obtain ⟨pre, hpre⟩ := (List.mem_tails ..).1 ht
    obtain ⟨post, hpost⟩ := List.isPrefixOf_iff_prefix.1 hp
    exact ⟨pre, post, by rw [← hpre, ← hpost, List.append_assoc]⟩
  · rintro ⟨pre, post, rfl⟩
    refine ⟨needle ++ post, (List.mem_tails ..).2 ⟨pre, by rw [List.append_assoc]⟩, ?_⟩
    exact List.isPrefixOf_iff_prefix.2 ⟨post, rfl⟩

/-- Claim C9, counterexample: the claim reads trailer tagging as a *suffix*
match, but the code tests substring containment.  The regular video file
`"my-trailer-park.mkv"` (whose stem contains, but does not end with,
`"-trailer"`) is excluded by the scan even though the claim says it must be
included. -/
theorem scan_filter_counterexample :
    ¬ ∀ e : FsEntry, scanIncludes e = claimIncluded e := by
  intro h
  exact absurd (h ⟨"my-trailer-park.mkv".data, true⟩) (by decide)

/-- Claim C9, amended: the recursive scan includes a directory entry iff it
is a regular file, its extension lowercases to a recognized video extension,
its stem does not *contain* the trailer suffix `"-trailer"` as a substring
(the code tests containment, not a suffix match), and it is not the library
index file `library.json`. -/
theorem scan_includes_iff (e : FsEntry) :
    scanIncludes e = true ↔
      e.isFile = true ∧
      toLowerStr (pathSuffix e.name) ∈ videoExtensions ∧
      (¬ ∃ pre post, pathStem e.name = pre ++ trailerSuffix ++ post) ∧
      e.name ≠ libraryIndexName := by
  unfold scanIncludes
  simp only [Bool.and_eq_true, Bool.not_eq_true', beq_eq_false_iff_ne,
    ne_eq, contains_mem_iff]
  constructor
  · rintro ⟨⟨⟨h1, h2⟩, h3⟩, h4⟩
    refine ⟨h1, h2, ?_, h4⟩
    intro hex
    rw [(containsSub_iff ..).2 hex] at h3
    exact Bool.false_ne_true h3.symm
  · rintro ⟨h1, h2, h3, h4⟩
    refine ⟨⟨⟨h1, h2⟩, ?_⟩, h4⟩
    cases hcs : containsSub trailerSuffix (pathStem e.name) with
    | false => rfl
    | true => exact absurd ((containsSub_iff ..).1 hcs) h3

/-- Merge of an already-chosen candidate with the best of the remaining
list: the accumulated candidate wins ties (it was encountered earlier). -/
def combineBest (a b : Option (Video × Nat)) : Option (Video × Nat) :=
  match a, b with
  | none, b => b
  | some a, none => some a
  | some (av, ap), some (bv, bp) =>
    if bp < ap then some (bv, bp) else some (av, ap)

theorem selectBestAux_eq_combine (l : List Video) :
    ∀ acc, selectBestAux acc l = combineBest acc (specBestVideo l) := by
  induction l with
  | nil => intro acc; cases acc <;> rfl
  | cons v vs ih =>
    intro acc
    cases hp : videoPriority v.vtype v.official with
    | none =>
      have hsel : selectBestAux acc (v :: vs) = selectBestAux acc vs := by
        conv_lhs => unfold selectBestAux
        rw [hp]
      have hspec : specBestVideo (v :: vs) = specBestVideo vs := by
        conv_lhs => unfold specBestVideo
        rw [hp]
      rw [hsel, hspec, ih acc]
    | some p =>
      cases hs : specBestVideo vs with
      | none =>
        have hspec : specBestVideo (v :: vs) = some (v, p) := by
          conv_lhs => unfold specBestVideo
          rw [hp, hs]
        cases acc with
        | none =>
          have hsel : selectBestAux none (v :: vs) =
              selectBestAux (some (v, p)) vs := by
            conv_lhs => unfold selectBestAux
            rw [hp]
          rw [hsel, hspec, ih (some (v, p)), hs]
          rfl
        | some a =>
          obtain ⟨av, ap⟩ := a
          have hsel : selectBestAux (some (av, ap)) (v :: vs) =
              if p < ap then selectBestAux (some (v, p)) vs
              else selectBestAux (some (av, ap)) vs := by
            conv_lhs => unfold selectBestAux
            rw [hp]
          rw [hsel, hspec]
          by_cases hcmp : p < ap
          · rw [if_pos hcmp, ih (some (v, p)), hs]
            simp only [combineBest]
            rw [if_pos hcmp]
          · rw [if_neg hcmp, ih (some (av, ap)), hs]
            simp only [combineBest]
            rw [if_neg hcmp]
      | some b =>
        obtain ⟨bv, bp⟩ := b
        have hspec : specBestVideo (v :: vs) =
            if p ≤ bp then some (v, p) else some (bv, bp) := by
          conv_lhs => unfold specBestVideo
          rw [hp, hs]
        cases acc with
        | none =>
          have hsel : selectBestAux none (v :: vs) =
              selectBestAux (some (v, p)) vs := by
            conv_lhs => unfold selectBestAux
            rw [hp]
          rw [hsel, hspec, ih (some (v, p)), hs]
          by_cases h1 : p ≤ bp
          · rw [if_pos h1]
            simp only [combineBest]
            split_ifs <;> first | rfl | omega
          · rw [if_neg h1]
            simp only [combineBest]
            split_ifs <;> first | rfl | omega
        | some a =>
          obtain ⟨av, ap⟩ := a
          have hsel : selectBestAux (some (av, ap)) (v :: vs) =
              if p < ap then selectBestAux (some (v, p)) vs
              else selectBestAux (some (av, ap)) vs := by
            conv_lhs => unfold selectBestAux
            rw [hp]
          rw [hsel, hspec]
          by_cases h1 : p ≤ bp
          · rw [if_pos h1]
            by_cases hcmp : p < ap
            · rw [if_pos hcmp, ih (some (v, p)), hs]
              simp only [combineBest]
              split_ifs <;> first | rfl | omega
            · rw [if_neg hcmp, ih (some (av, ap)), hs]
              simp only [combineBest]
              split_ifs <;> first | rfl | omega
          · rw [if_neg h1]
            by_cases hcmp : p < ap
            · rw [if_pos hcmp, ih (some (v, p)), hs]
              simp only [combineBest]
              split_ifs <;> first | rfl | omega
            · rw [if_neg hcmp, ih (some (av, ap)), hs]

theorem specBestVideo_none_of_no_priority (l : List Video)
    (h : ∀ v ∈ l, videoPriority v.vtype v.official = none) :
    specBestVideo l = none := by
  induction l with
  | nil => rfl
  | cons v vs ih =>
    unfold specBestVideo
    rw [h v (List.mem_cons_self v vs),
      ih fun u hu => h u (List.mem_cons_of_mem v hu)]

/-- Claim C5: trailer-key resolution filters the catalog's video list to the
configured platform (`site == "YouTube"`), then returns the key of the
single highest-priority candidate under official trailer (1) > unofficial
trailer (2) > official teaser (3) > unofficial teaser (4), scanning the
whole list, with ties within a class broken by first position in list
order (`specBestVideo`); when no candidate falls in one of the four
classes, it returns `none`. -/
theorem get_trailer_key_spec (videos : List Video) :
    get_trailer_key videos =
      (specBestVideo
          (videos.filter fun v =>
            v.site = some ['Y', 'o', 'u', 'T', 'u', 'b', 'e'])).bind
        (fun b => b.1.key) ∧
    ((∀ v ∈ videos.filter
          (fun v => v.site = some ['Y', 'o', 'u', 'T', 'u', 'b', 'e']),
        videoPriority v.vtype v.official = none) →
      get_trailer_key videos = none) := by
  have hsel :
      get_trailer_key videos =
        (specBestVideo
            (videos.filter fun v =>
              v.site = some ['Y', 'o', 'u', 'T', 'u', 'b', 'e'])).bind
          (fun b => b.1.key) := by
    simp only [get_trailer_key]
    rw [selectBestAux_eq_combine]
    cases specBestVideo
        (videos.filter fun v =>
          decide (v.site = some ['Y', 'o', 'u', 'T', 'u', 'b', 'e'])) with
    | none => rfl
    | some b => obtain ⟨bv, bp⟩ := b; rfl
  refine ⟨hsel, fun hnone => ?_⟩
  rw [hsel, specBestVideo_none_of_no_priority _ hnone]
  rfl

/-- Witness for C5's no-candidate clause: a list whose only
platform-matching video is a `"Clip"` (no priority class) resolves to no
trailer key. -/
theorem get_trailer_key_spec_witness :
    get_trailer_key
      [⟨some ['Y', 'o', 'u', 'T', 'u', 'b', 'e'],
        some ['C', 'l', 'i', 'p'], true, some ['k']⟩,
       ⟨some ['V', 'i', 'm', 'e', 'o'],
        some ['T', 'r', 'a', 'i', 'l', 'e', 'r'], true, some ['k']⟩] =
      none :=
  (get_trailer_key_spec
    [⟨some ['Y', 'o', 'u', 'T', 'u', 'b', 'e'],
      some ['C', 'l', 'i', 'p'], true, some ['k']⟩,
     ⟨some ['V', 'i', 'm', 'e', 'o'],
      some ['T', 'r', 'a', 'i', 'l', 'e', 'r'], true, some ['k']⟩]).2
    (by decide)

/-- Claim C8: whenever the tokenizing parser returns a result, the returned
title is non-empty, none of its whitespace-separated tokens has a lowercase
form in the junk-word set or the fixed default quality/codec tag set, and
the title does not case-insensitively equal any known junk/placeholder
title. -/
theorem parse_title_never_junk (filename : Str) (junkWords : List Str)
    (title : Str) (year : Option Nat)
    (h : parseFilename filename junkWords = some (title, year)) :
    title ≠ [] ∧
    (∀ tok ∈ splitWs title,
        toLowerStr tok ∉ junkWords ∧ toLowerStr tok ∉ defaultJunk) ∧
    toLowerStr title ∉ junkTitles := by
  unfold parseFilename at h
  dsimp only [] at h
  split at h
  · exact absurd h (by simp)
  split at h
  · exact absurd h (by simp)
  rename_i hempty hjunk
  rw [Option.some.injEq, Prod.mk.injEq] at h
  obtain ⟨ht, -⟩ := h
  subst ht
  have htoks :
      ∀ t ∈ (splitWs (removeBrackets (subSeps
          (match findYear (pathStem filename) with
            | some (i, _) => (pathStem filename).take i
            | none => pathStem filename)))).filter (keepToken junkWords),
        t ≠ [] ∧ ∀ c ∈ t, c.isWhitespace = false :=
    fun t ht => splitWs_tokens _ t (List.mem_of_mem_filter ht)
  have hstrip := pyStrip_joinSpace _ htoks
  have hsplit := splitWs_joinSpace _ htoks
  refine ⟨?_, ?_, ?_⟩
  · intro hnil
    exact hempty (by rw [hnil]; rfl)
  · intro tok htok
    rw [hstrip, hsplit] at htok
    have hkeep := List.of_mem_filter htok
    unfold keepToken at hkeep
    rw [Bool.and_eq_true, Bool.not_eq_true', Bool.or_eq_false_iff] at hkeep
    obtain ⟨⟨h1, h2⟩, -⟩ := hkeep
    constructor
    · intro hmem
      rw [(contains_mem_iff ..).2 hmem] at h1
      exact Bool.noConfusion h1
    · intro hmem
      rw [(contains_mem_iff ..).2 hmem] at h2
      exact Bool.noConfusion h2
  · intro hmem
    exact hjunk ((contains_mem_iff ..).2 hmem)

/-- Witness for C8 at a concrete messy filename. -/
theorem parse_title_never_junk_witness :
    "Alpha Beta".data ≠ [] ∧
    (∀ tok ∈ splitWs "Alpha Beta".data,
        toLowerStr tok ∉ ([] : List Str) ∧ toLowerStr tok ∉ defaultJunk) ∧
    toLowerStr "Alpha Beta".data ∉ junkTitles :=
  parse_title_never_junk "Alpha.Beta.2020.mkv".data [] "Alpha Beta".data
    (some 2020) (by decide)

theorem uint32_le_iff (a b : UInt32) : a ≤ b ↔ a.toNat ≤ b.toNat := by
  rw [UInt32.le_def, BitVec.le_def]; rfl

theorem char_toNat_ofNat_small (n : Nat) (h : n < 55296) :
    (Char.ofNat n).toNat = n := by
  unfold Char.ofNat
  rw [dif_pos (Or.inl h)]
  show (UInt32.ofNat' n _).toNat = n
  simp [UInt32.ofNat', UInt32.toNat, BitVec.toNat_ofNatLt]

/-- ASCII lowercasing never produces an uppercase letter. -/
theorem toLower_isUpper_false (c : Char) : (Char.toLower c).isUpper = false := by
  unfold Char.toLower
  simp only []
  by_cases h : c.toNat ≥ 65 ∧ c.toNat ≤ 90
  · rw [if_pos h]
    have htoNat : (Char.ofNat (c.toNat + 32)).val.toNat = c.toNat + 32 :=
      char_toNat_ofNat_small _ (by omega)
    unfold Char.isUpper
    rw [Bool.and_eq_false_iff]
    right
    rw [decide_eq_false_iff_not]
    intro hle
    rw [uint32_le_iff] at hle
    have h90 : (90 : UInt32).toNat = 90 := rfl
    rw [h90] at hle
    omega
  · rw [if_neg h]
    unfold Char.isUpper
    rw [Bool.and_eq_false_iff]
    by_cases h65 : (65 : UInt32) ≤ c.val
    · right
      rw [decide_eq_false_iff_not]
      intro hle
      rw [uint32_le_iff] at hle
      rw [uint32_le_iff] at h65
      have h90 : (90 : UInt32).toNat = 90 := rfl
      have h65v : (65 : UInt32).toNat = 65 := rfl
      rw [h90] at hle
      rw [h65v] at h65
      exact h ⟨h65, hle⟩
    · left
      rw [decide_eq_false_iff_not]
      exact h65

/-- Shape of every token produced by `_tokenize_filename`: lowercase, at
least three characters, not entirely numeric. -/
theorem tokenizeFilename_shape (f : Str) (w : Str)
    (hw : w ∈ tokenizeFilename f) :
    (∀ c ∈ w, c.isUpper = false) ∧ 3 ≤ w.length ∧
      w.all Char.isDigit = false := by
  unfold tokenizeFilename at hw
  dsimp only [] at hw
  have hpred := List.of_mem_filter hw
  have hmem := List.mem_of_mem_filter hw
  rw [Bool.and_eq_true] at hpred
  obtain ⟨hlen, hdig⟩ := hpred
  obtain ⟨x, hx, rfl⟩ := List.mem_map.1 hmem
  have hlen' : 3 ≤ (toLowerStr x).length := by
    rw [decide_eq_true_eq] at hlen
    omega
  refine ⟨?_, hlen', ?_⟩
  · intro c hc
    obtain ⟨d, _, rfl⟩ := List.mem_map.1 hc
    exact toLower_isUpper_false d
  · rw [Bool.not_eq_true'] at hdig
    unfold pyIsDigit at hdig
    rw [Bool.and_eq_false_iff] at hdig
    rcases hdig with hdig | hdig
    · exfalso
      rw [Bool.not_eq_false'] at hdig
      rw [List.isEmpty_eq_true] at hdig
      rw [hdig] at hlen'
      simp at hlen'
    · exact hdig

/-- Claim C10: every token produced by the junk tokenizer — and hence every
word of a freshly built learned junk-word set — is lowercase (no uppercase
ASCII letter), has length at least 3, and is not composed entirely of
digits; consequently the two-character tag `"4k"` and purely numeric tokens
can never enter the learned junk-word set. -/
theorem junk_words_shape (names : List Str) (f : Str) :
    (∀ w ∈ tokenizeFilename f,
        (∀ c ∈ w, c.isUpper = false) ∧ 3 ≤ w.length ∧
          w.all Char.isDigit = false) ∧
    (∀ w ∈ buildJunkCache names,
        (∀ c ∈ w, c.isUpper = false) ∧ 3 ≤ w.length ∧
          w.all Char.isDigit = false) ∧
    ['4', 'k'] ∉ buildJunkCache names ∧
    (∀ w : Str, w.all Char.isDigit = true → w ∉ buildJunkCache names) := by
  have hbuild : ∀ w ∈ buildJunkCache names,
      (∀ c ∈ w, c.isUpper = false) ∧ 3 ≤ w.length ∧
        w.all Char.isDigit = false := by
    intro w hw
    unfold buildJunkCache at hw
    dsimp only [] at hw
    split at hw
    · simp at hw
    split at hw
    · simp at hw
    have hmem := List.mem_of_mem_filter hw
    rw [List.mem_dedup] at hmem
    rw [List.mem_flatten] at hmem
    obtain ⟨tl, htl, hwtl⟩ := hmem
    obtain ⟨n, _, rfl⟩ := List.mem_map.1 htl
    rw [List.mem_dedup] at hwtl
    exact tokenizeFilename_shape n w hwtl
  refine ⟨fun w hw => tokenizeFilename_shape f w hw, hbuild, ?_, ?_⟩
  · intro hmem
    have := (hbuild _ hmem).2.1
    simp at this
  · intro w hdig hmem
    have := (hbuild _ hmem).2.2
    rw [hdig] at this
    exact Bool.noConfusion this

/-- Witness for C10 at a concrete library listing (10 files, 9 of them
unnormalized, sharing the junk token `"xvid"`). -/
theorem junk_words_shape_witness :
    "1234".data ∉
      buildJunkCache
        ["a.xvid.one.mkv".data, "b.xvid.two.mkv".data, "c.xvid.three.mkv".data,
         "d.xvid.four.mkv".data, "e.xvid.five.mkv".data,
         "Movie (2021).mkv".data, "f.2021.mkv".data, "g.something.mkv".data,
         "h.other.mkv".data, "i.thing.mkv".data] :=
  (junk_words_shape
      ["a.xvid.one.mkv".data, "b.xvid.two.mkv".data, "c.xvid.three.mkv".data,
       "d.xvid.four.mkv".data, "e.xvid.five.mkv".data,
       "Movie (2021).mkv".data, "f.2021.mkv".data, "g.something.mkv".data,
       "h.other.mkv".data, "i.thing.mkv".data] []).2.2.2 "1234".data
    (by decide)

theorem takeWhile_append_stop (p : Char → Bool) (l1 : Str) (a : Char)
    (l2 : Str) (h1 : ∀ c ∈ l1, p c = true) (h2 : p a = false) :
    (l1 ++ a :: l2).takeWhile p = l1 := by
  induction l1 with
  | nil => simp [List.takeWhile_cons, h2]
  | cons c cs ih =>
    rw [List.cons_append, List.takeWhile_cons_of_pos (h1 c (by simp)),
      ih fun d hd => h1 d (List.mem_cons_of_mem c hd)]

/-- `pathlib` stem of `s ++ "." ++ r` is `s` when neither part contains a
dot, `s` is non-empty and `r` is non-empty. -/
theorem pathStem_structure (s r : Str) (hs : s ≠ []) (hr : r ≠ [])
    (hrd : '.' ∉ r) :
    pathStem (s ++ '.' :: r) = s := by
  have hrev : (s ++ '.' :: r).reverse = r.reverse ++ '.' :: s.reverse := by
    simp
  have htake : ((s ++ '.' :: r).reverse.takeWhile fun c => c != '.') =
      r.reverse := by
    rw [hrev]
    refine takeWhile_append_stop _ _ _ _ ?_ (by simp)
    intro c hc
    have : c ∈ r := List.mem_reverse.1 hc
    simp only [bne_iff_ne, ne_eq, decide_eq_true_eq]
    intro hceq
    exact hrd (hceq ▸ this)
  have hlen : (s ++ '.' :: r).length = s.length + 1 + r.length := by
    simp; omega
  unfold pathStem lastDotIdx
  dsimp only []
  rw [htake, hlen]
  have hrlen : r.reverse.length = r.length := by simp
  rw [hrlen]
  rw [if_neg (by
    intro hcontra
    have h1 : 0 < s.length := List.length_pos.2 hs
    omega)]
  dsimp only []
  have hidx : s.length + 1 + r.length - 1 - r.length = s.length := by omega
  rw [hidx]
  rw [if_pos ⟨List.length_pos.2 hs, by
    have h2 : 0 < r.length := List.length_pos.2 hr
    omega⟩]
  have : s ++ '.' :: r = s ++ ('.' :: r) := rfl
  rw [this, List.take_left' rfl]

theorem subSeps_eq_self (s : Str) (h : ∀ c ∈ s, isSepChar c = false) :
    subSeps s = s := by
  unfold subSeps
  induction s with
  | nil => rfl
  | cons c cs ih =>
    rw [List.map_cons, if_neg (by rw [h c (by simp)]; exact Bool.noConfusion),
      ih fun d hd => h d (List.mem_cons_of_mem c hd)]

theorem alnum_or_space_not_sep (c : Char)
    (h : c.isAlphanum = true ∨ c = ' ') : isSepChar c = false := by
  cases hsep : isSepChar c with
  | false => rfl
  | true =>
    exfalso
    unfold isSepChar at hsep
    simp only [Bool.or_eq_true, decide_eq_true_eq] at hsep
    rcases h with ha | rfl
    · rcases hsep with ((((((rfl | rfl) | rfl) | rfl) | rfl) | rfl) | rfl) <;>
        exact absurd ha (by decide)
    · rcases hsep with ((((((h' | h') | h') | h') | h') | h') | h') <;>
        exact absurd h' (by decide)

theorem alnum_or_space_not_bracket (c : Char)
    (h : c.isAlphanum = true ∨ c = ' ') : c ≠ '(' ∧ c ≠ '[' := by
  rcases h with ha | rfl
  · constructor <;> rintro rfl <;> exact absurd ha (by decide)
  · constructor <;> decide

theorem removeBracketsFuel_id (f : Nat) (s : Str)
    (h : ∀ c ∈ s, c ≠ '(' ∧ c ≠ '[') : removeBracketsFuel f s = s := by
  induction f generalizing s with
  | zero => rfl
  | succ f ih =>
    cases s with
    | nil => rfl
    | cons c cs =>
      have hc := h c (by simp)
      unfold removeBracketsFuel
      rw [if_neg (by simp [hc.1, hc.2])]
      rw [ih cs fun d hd => h d (List.mem_cons_of_mem c hd)]

theorem splitWsAux_snoc_ws (c : Char) (hc : c.isWhitespace = true) (s : Str) :
    ∀ acc, splitWsAux (s ++ [c]) acc = splitWsAux s acc := by
  induction s with
  | nil =>
    intro acc
    show splitWsAux [c] acc = splitWsAux [] acc
    simp [splitWsAux, hc]
  | cons d ds ih =>
    intro acc
    show splitWsAux (d :: (ds ++ [c])) acc = splitWsAux (d :: ds) acc
    cases hd : d.isWhitespace with
    | true => simp [splitWsAux, hd, ih]
    | false => simp [splitWsAux, hd, ih]

theorem splitWs_snoc_ws (s : Str) (c : Char) (hc : c.isWhitespace = true) :
    splitWs (s ++ [c]) = splitWs s :=
  splitWsAux_snoc_ws c hc s []

/-- Claim C3, counterexample: the canonical stem `"Mr. Bean (1997)"` (in a
folder of the same name, with a `.mkv` extension) parses to
`("Mr. Bean", 1997)` on the fast path but to `("Mr Bean", 1997)` on the
tokenizing path — the dot of the title is rewritten to a space — so the two
paths do not agree on every canonical stem. -/
theorem fast_path_counterexample :
    ¬ ∀ (stem : Str) (junkWords : List Str), isNormalizedStem stem = true →
        (parseNormalizedStem stem).map (fun p => (p.1, some p.2)) =
          parseFilename (stem ++ '.' :: ['m', 'k', 'v']) junkWords := by
  intro h
  exact absurd (h "Mr. Bean (1997)".data [] (by decide)) (by decide)

/-- Claim C3, amended: the fast exact-pattern path and the tokenizing path
agree on every canonical stem `"T (dddd)"` whose year part is plausible
(`19xx`/`20xx`), and whose title `T` survives the tokenizing cleanup
unchanged: `T` is non-empty, consists of ASCII alphanumeric characters and
single spaces (no separator characters, normalized spacing), none of its
tokens is dropped by the junk/year token filter, it is not a known junk
title, and the first year-pattern match in the stem is the parenthesized
year itself.  On such stems the fast path returns `(T, year)` and the
tokenizing path on `T (dddd).<ext>` returns the same pair. -/
theorem normalized_fast_path_agreement
    (T : Str) (d1 d2 d3 d4 : Char) (r : Str) (junkWords : List Str)
    (hT : T ≠ [])
    (hchars : ∀ c ∈ T, c.isAlphanum = true ∨ c = ' ')
    (hjoin : joinSpace (splitWs T) = T)
    (htoks : ∀ tok ∈ splitWs T, keepToken junkWords tok = true)
    (hjt : junkTitles.contains (toLowerStr T) = false)
    (hd12 : yearHead d1 d2 = true) (hd3 : d3.isDigit = true)
    (hd4 : d4.isDigit = true)
    (hyear : findYear (T ++ ' ' :: '(' :: d1 :: d2 :: d3 :: d4 :: [')']) =
        some (T.length + 2, toYearVal d1 d2 d3 d4))
    (hr : r ≠ []) (hrd : '.' ∉ r) :
    parseNormalizedStem (T ++ ' ' :: '(' :: d1 :: d2 :: d3 :: d4 :: [')']) =
      some (T, toYearVal d1 d2 d3 d4) ∧
    parseFilename
        ((T ++ ' ' :: '(' :: d1 :: d2 :: d3 :: d4 :: [')']) ++ '.' :: r)
        junkWords =
      some (T, some (toYearVal d1 d2 d3 d4)) := by
  have hd1d2 : d1.isDigit = true ∧ d2.isDigit = true := by
    have h := hd12
    unfold yearHead at h
    simp only [Bool.or_eq_true, Bool.and_eq_true, decide_eq_true_eq] at h
    rcases h with ⟨rfl, rfl⟩ | ⟨rfl, rfl⟩ <;> exact ⟨by decide, by decide⟩
  have hTnosep : ∀ c ∈ T, isSepChar c = false :=
    fun c hc => alnum_or_space_not_sep c (hchars c hc)
  have hTnobr : ∀ c ∈ T, c ≠ '(' ∧ c ≠ '[' :=
    fun c hc => alnum_or_space_not_bracket c (hchars c hc)
  have hTnonl : T.reverse.contains '\n' = false := by
    cases hcn : T.reverse.contains '\n' with
    | false => rfl
    | true =>
      exfalso
      have hmem : '\n' ∈ T := List.mem_reverse.1 ((contains_mem_iff ..).1 hcn)
      rcases hchars '\n' hmem with ha | ha <;> exact absurd ha (by decide)
  have hrev : (T ++ ' ' :: '(' :: d1 :: d2 :: d3 :: d4 :: [')']).reverse =
      ')' :: d4 :: d3 :: d2 :: d1 :: '(' :: ' ' :: T.reverse := by
    simp
  have hlast :
      (T ++ ' ' :: '(' :: d1 :: d2 :: d3 :: d4 :: [')']).getLast? =
        some ')' := by
    rw [← List.head?_reverse, hrev]
    rfl
  have hfast :
      parseNormalizedStem (T ++ ' ' :: '(' :: d1 :: d2 :: d3 :: d4 :: [')']) =
        some (T, toYearVal d1 d2 d3 d4) := by
    unfold parseNormalizedStem dollarAdjust
    rw [hlast, if_neg (by decide)]
    unfold normalizedCore
    rw [hrev]
    dsimp only []
    rw [if_pos
      ⟨rfl, rfl, hd4, hd3, hd1d2.2, hd1d2.1, by decide, hTnonl⟩]
    rw [List.reverse_reverse]
  refine ⟨hfast, ?_⟩
  have hstem' :
      pathStem ((T ++ ' ' :: '(' :: d1 :: d2 :: d3 :: d4 :: [')']) ++ '.' :: r) =
        T ++ ' ' :: '(' :: d1 :: d2 :: d3 :: d4 :: [')'] := by
    refine pathStem_structure _ r ?_ hr hrd
    cases T with
    | nil => exact absurd rfl hT
    | cons c cs => simp
  have htake :
      (T ++ ' ' :: '(' :: d1 :: d2 :: d3 :: d4 :: [')']).take (T.length + 2) =
        T ++ [' ', '('] := by
    have hassoc : T ++ ' ' :: '(' :: d1 :: d2 :: d3 :: d4 :: [')'] =
        (T ++ [' ', '(']) ++ [d1, d2, d3, d4, ')'] := by simp
    rw [hassoc]
    exact List.take_left' (by simp)
  have hsub : subSeps (T ++ [' ', '(']) = T ++ [' ', ' '] := by
    have h1 : subSeps (T ++ [' ', '(']) = subSeps T ++ subSeps [' ', '('] := by
      unfold subSeps
      rw [List.map_append]
    rw [h1, subSeps_eq_self T hTnosep]
    rfl
  have hrb : removeBrackets (T ++ [' ', ' ']) = T ++ [' ', ' '] := by
    refine removeBracketsFuel_id _ _ ?_
    intro c hc
    rcases List.mem_append.1 hc with hc | hc
    · exact hTnobr c hc
    · simp only [List.mem_cons, List.not_mem_nil, or_false] at hc
      rcases hc with rfl | rfl <;> exact ⟨by decide, by decide⟩
  have hsp : splitWs (T ++ [' ', ' ']) = splitWs T := by
    have hx : T ++ [' ', ' '] = (T ++ [' ']) ++ [' '] := by simp
    rw [hx, splitWs_snoc_ws _ ' ' (by decide), splitWs_snoc_ws _ ' ' (by decide)]
  have hfil : (splitWs T).filter (keepToken junkWords) = splitWs T :=
    List.filter_eq_self.2 htoks
  have hsj : pyStrip (joinSpace (splitWs T)) = T := by
    rw [pyStrip_joinSpace _ (splitWs_tokens T), hjoin]
  have hTe : T.isEmpty = false := by
    cases T with
    | nil => exact absurd rfl hT
    | cons c cs => rfl
  unfold parseFilename
  dsimp only []
  rw [hstem', hyear]
  dsimp only [Option.map]
  rw [htake, hsub, hrb, hsp, hfil, hsj, hTe, hjt]
  simp

/-- Witness for the amended C3 at the canonical stem
`"Good Movie (2021)"` with extension `.mkv` and an empty junk-word set. -/
theorem normalized_fast_path_agreement_witness :
    parseNormalizedStem "Good Movie (2021)".data =
      some ("Good Movie".data, 2021) ∧
    parseFilename "Good Movie (2021).mkv".data [] =
      some ("Good Movie".data, some 2021) := by
  have h := normalized_fast_path_agreement "Good Movie".data '2' '0' '2' '1'
    "mkv".data [] (by decide) (by decide) (by decide) (by decide) (by decide)
    (by decide) (by decide) (by decide) (by decide) (by decide) (by decide)
  exact h
